import Mathlib

/-!
Shallow embedding of the arithmetic cores of the hifiberry-vu repository,
with theorems settling the specification claims.  Python float arithmetic
is modelled over the rationals; math.pi is abstracted as a parameter in the
places where every claimed identity holds for any value of it.
-/

/-- Configuration record for the VU meter, mirroring the fields of the
CONFIGS dictionaries in src/hifiberry_vu/vu_meter.py that the needle
mapping reads (both configurations carry min_db = -20, max_db = 6,
needle_min_angle = -35, needle_max_angle = 18). -/
structure VuConfig where
  min_db : ℚ
  max_db : ℚ
  needle_min_angle : ℚ
  needle_max_angle : ℚ
deriving DecidableEq

/-- The values common to both CONFIGS entries of src/hifiberry_vu/vu_meter.py
(lines 64-88). -/
def defaultConfig : VuConfig := ⟨-20, 6, -35, 18⟩

/-- The dB-to-needle-angle mapping at the end of
VUMeter._update_audio_needle (src/hifiberry_vu/vu_meter.py lines 458-471):
normalize against the configured dB window, clamp to [0,1] via
max(0.0, min(1.0, x)), then interpolate into the configured angle range. -/
def needle_angle_of_db (cfg : VuConfig) (avg_vu_db : ℚ) : ℚ :=
  let vu_range := cfg.max_db - cfg.min_db
  let vu_normalized := (avg_vu_db - cfg.min_db) / vu_range
  let vu_clamped := max 0 (min 1 vu_normalized)
  let angle_range := cfg.needle_max_angle - cfg.needle_min_angle
  cfg.needle_min_angle + vu_clamped * angle_range

lemma needle_angle_of_db_def (cfg : VuConfig) (d : ℚ) :
    needle_angle_of_db cfg d =
      cfg.needle_min_angle +
        max 0 (min 1 ((d - cfg.min_db) / (cfg.max_db - cfg.min_db))) *
          (cfg.needle_max_angle - cfg.needle_min_angle) := rfl

/-- C1: the VU dB-to-needle-angle mapping is monotonic non-decreasing,
maps every reading at or below min_db exactly to needle_min_angle, every
reading at or above max_db exactly to needle_max_angle, and is the affine
interpolation formula in between (min_db < max_db as the claim assumes;
needle_min_angle ≤ needle_max_angle as the configuration provides). -/
theorem c1_needle_angle_mapping (cfg : VuConfig) (d1 d2 dlo dhi dmid : ℚ)
    (hdb : cfg.min_db < cfg.max_db)
    (hang : cfg.needle_min_angle ≤ cfg.needle_max_angle)
    (h12 : d1 ≤ d2) (hlo : dlo ≤ cfg.min_db) (hhi : cfg.max_db ≤ dhi)
    (hm1 : cfg.min_db ≤ dmid) (hm2 : dmid ≤ cfg.max_db) :
    needle_angle_of_db cfg d1 ≤ needle_angle_of_db cfg d2 ∧
    needle_angle_of_db cfg dlo = cfg.needle_min_angle ∧
    needle_angle_of_db cfg dhi = cfg.needle_max_angle ∧
    needle_angle_of_db cfg dmid = cfg.needle_min_angle +
      (dmid - cfg.min_db) / (cfg.max_db - cfg.min_db) *
        (cfg.needle_max_angle - cfg.needle_min_angle) := by
  have hR : (0 : ℚ) < cfg.max_db - cfg.min_db := by linarith
  have harange : (0 : ℚ) ≤ cfg.needle_max_angle - cfg.needle_min_angle := by linarith
  simp only [needle_angle_of_db_def]
  refine ⟨?_, ?_, ?_, ?_⟩
  · have hdiv : (d1 - cfg.min_db) / (cfg.max_db - cfg.min_db) ≤
        (d2 - cfg.min_db) / (cfg.max_db - cfg.min_db) :=
      (div_le_div_iff_of_pos_right hR).mpr (by linarith)
    have hclamp : max 0 (min 1 ((d1 - cfg.min_db) / (cfg.max_db - cfg.min_db))) ≤
        max 0 (min 1 ((d2 - cfg.min_db) / (cfg.max_db - cfg.min_db))) :=
      max_le_max le_rfl (min_le_min le_rfl hdiv)
    exact add_le_add_left (mul_le_mul_of_nonneg_right hclamp harange) _
  · have hx : (dlo - cfg.min_db) / (cfg.max_db - cfg.min_db) ≤ 0 := by
      have h0 : (dlo - cfg.min_db) / (cfg.max_db - cfg.min_db) ≤
          0 / (cfg.max_db - cfg.min_db) :=
        (div_le_div_iff_of_pos_right hR).mpr (by linarith)
      simpa using h0
    have hmin : min 1 ((dlo - cfg.min_db) / (cfg.max_db - cfg.min_db)) ≤ 0 :=
      le_trans (min_le_right _ _) hx
    rw [max_eq_left hmin]
    ring
  · have hx : (1 : ℚ) ≤ (dhi - cfg.min_db) / (cfg.max_db - cfg.min_db) := by
      have h0 : (cfg.max_db - cfg.min_db) / (cfg.max_db - cfg.min_db) ≤
          (dhi - cfg.min_db) / (cfg.max_db - cfg.min_db) :=
        (div_le_div_iff_of_pos_right hR).mpr (by linarith)
      rwa [div_self (ne_of_gt hR)] at h0
    rw [min_eq_left hx, max_eq_right (by norm_num : (0 : ℚ) ≤ 1)]
    ring
  · have hx0 : (0 : ℚ) ≤ (dmid - cfg.min_db) / (cfg.max_db - cfg.min_db) :=
      div_nonneg (by linarith) (le_of_lt hR)
    have hx1 : (dmid - cfg.min_db) / (cfg.max_db - cfg.min_db) ≤ 1 :=
      (div_le_one hR).mpr (by linarith)
    rw [min_eq_right hx1, max_eq_right hx0]

/-- Witness for C1 at the repository's configured values. -/
theorem c1_needle_angle_mapping_witness :
    (defaultConfig.min_db < defaultConfig.max_db ∧
      defaultConfig.needle_min_angle ≤ defaultConfig.needle_max_angle ∧
      (-10 : ℚ) ≤ -5 ∧ (-30 : ℚ) ≤ defaultConfig.min_db ∧
      defaultConfig.max_db ≤ (10 : ℚ) ∧
      defaultConfig.min_db ≤ (0 : ℚ) ∧ (0 : ℚ) ≤ defaultConfig.max_db) ∧
    (needle_angle_of_db defaultConfig (-10) ≤ needle_angle_of_db defaultConfig (-5) ∧
      needle_angle_of_db defaultConfig (-30) = defaultConfig.needle_min_angle ∧
      needle_angle_of_db defaultConfig 10 = defaultConfig.needle_max_angle ∧
      needle_angle_of_db defaultConfig 0 = defaultConfig.needle_min_angle +
        (0 - defaultConfig.min_db) / (defaultConfig.max_db - defaultConfig.min_db) *
          (defaultConfig.needle_max_angle - defaultConfig.needle_min_angle)) :=
  ⟨by decide,
   c1_needle_angle_mapping defaultConfig (-10) (-5) (-30) 10 0
     (by decide) (by decide) (by decide) (by decide) (by decide)
     (by decide) (by decide)⟩

/-- Frame-index selection of the animation loops
(src/vinyl_simple.py lines 93-95 and src/vinyl_ultra_fast.py lines 150-152):
int(elapsed_time / frame_duration) % totalFrames.  Python's int() truncates
toward zero, which is the floor for the non-negative elapsed times the loop
produces, so it is modelled as the integer floor followed by toNat. -/
def frameIndex (frame_duration : ℚ) (totalFrames : ℕ) (t : ℚ) : ℕ :=
  (⌊t / frame_duration⌋).toNat % totalFrames

/-- Frame duration of src/vinyl_simple.py line 87: 1.8 / 36. -/
def simpleFrameDuration : ℚ := 18 / 10 / 36

/-- Frame duration of src/vinyl_ultra_fast.py line 136: 1.8 / 60. -/
def ultraFrameDuration : ℚ := 18 / 10 / 60

/-- C3: the selected frame index always lies in [0, totalFrames - 1], is
periodic with period totalFrames * frameDuration, and is monotonic
non-decreasing over one period. -/
theorem c3_frame_index (f : ℚ) (N : ℕ) (t t1 t2 : ℚ)
    (hf : 0 < f) (hN : 0 < N) (ht : 0 ≤ t)
    (h1 : 0 ≤ t1) (h12 : t1 ≤ t2) (h2 : t2 < N * f) :
    frameIndex f N t < N ∧
    frameIndex f N (t + N * f) = frameIndex f N t ∧
    frameIndex f N t1 ≤ frameIndex f N t2 := by
  refine ⟨Nat.mod_lt _ hN, ?_, ?_⟩
  · have hfne : f ≠ 0 := ne_of_gt hf
    have hdiv : (t + N * f) / f = t / f + (N : ℚ) := by
      field_simp
    have : ⌊(t + N * f) / f⌋ = ⌊t / f⌋ + (N : ℤ) := by
      rw [hdiv]
      exact_mod_cast Int.floor_add_int (t / f) (N : ℤ)
    unfold frameIndex
    rw [this]
    have hfloor : 0 ≤ ⌊t / f⌋ := Int.floor_nonneg.mpr (div_nonneg ht (le_of_lt hf))
    have htoNat : (⌊t / f⌋ + (N : ℤ)).toNat = ⌊t / f⌋.toNat + N := by omega
    rw [htoNat, Nat.add_mod_right]
  · have hmono : ⌊t1 / f⌋ ≤ ⌊t2 / f⌋ :=
      Int.floor_le_floor (by exact (div_le_div_iff_of_pos_right hf).mpr h12)
    have hlt2 : ⌊t2 / f⌋ < (N : ℤ) := by
      apply Int.floor_lt.mpr
      rw [div_lt_iff₀ hf]
      push_cast
      linarith
    have hge1 : 0 ≤ ⌊t1 / f⌋ := Int.floor_nonneg.mpr (div_nonneg h1 (le_of_lt hf))
    unfold frameIndex
    have e1 : ⌊t1 / f⌋.toNat % N = ⌊t1 / f⌋.toNat := Nat.mod_eq_of_lt (by omega)
    have e2 : ⌊t2 / f⌋.toNat % N = ⌊t2 / f⌋.toNat := Nat.mod_eq_of_lt (by omega)
    rw [e1, e2]
    omega

/-- Witness for C3 at the vinyl_simple loop constants. -/
theorem c3_frame_index_witness :
    ((0 : ℚ) < simpleFrameDuration ∧ 0 < 36 ∧ (0 : ℚ) ≤ 7/3 ∧
      (0 : ℚ) ≤ 1/4 ∧ (1/4 : ℚ) ≤ 1/2 ∧ (1/2 : ℚ) < 36 * simpleFrameDuration) ∧
    (frameIndex simpleFrameDuration 36 (7/3) < 36 ∧
      frameIndex simpleFrameDuration 36 (7/3 + 36 * simpleFrameDuration) =
        frameIndex simpleFrameDuration 36 (7/3) ∧
      frameIndex simpleFrameDuration 36 (1/4) ≤ frameIndex simpleFrameDuration 36 (1/2)) :=
  ⟨by norm_num [simpleFrameDuration],
   c3_frame_index simpleFrameDuration 36 (7/3) (1/4) (1/2)
     (by norm_num [simpleFrameDuration]) (by norm_num) (by norm_num)
     (by norm_num) (by norm_num) (by norm_num [simpleFrameDuration])⟩

/-- RGB-to-RGB565 packing from src/vinyl_simple.py lines 13-14 (identical in
src/vinyl_ultra_fast.py lines 26-28). -/
def rgb_to_rgb565 (r g b : ℕ) : ℕ :=
  ((r >>> 3) <<< 11) ||| ((g >>> 2) <<< 5) ||| (b >>> 3)

/-- Two-byte little-endian packing of an RGB565 value, the effect of
struct.pack with format H on the repository's little-endian ARM target
(src/vinyl_simple.py line 59, src/direct_fb_circle.py line 79). -/
def encodePixel2 (r g b : ℕ) : List ℕ :=
  [rgb_to_rgb565 r g b % 256, rgb_to_rgb565 r g b / 256]

/-- Four-byte BGRA encoding of a color.  Modelled from the spec: the
4-byte codec contract (byte 0 = blue, byte 1 = green, byte 2 = red,
byte 3 = 255); src/direct_fb_circle.py line 74 only instantiates it at pure
blue with struct.pack of the bytes 255, 0, 0, 255. -/
def encodePixel4 (r g b : ℕ) : List ℕ := [b, g, r, 255]

/-- The literal four bytes written for the blue circle in
src/direct_fb_circle.py line 74. -/
def bgraBlueBytes : List ℕ := [255, 0, 0, 255]

/-- C4: the pixel codec produces exactly bytesPerPixel bytes; the RGB565
value fits in 16 bits and its 2-byte little-endian encoding recombines to
the packed value with each byte below 256; the 4-byte encoding is BGRA with
alpha forced to 255, matching the blue literal the source writes. -/
theorem c4_pixel_codec (r g b : ℕ) (hr : r ≤ 255) (hg : g ≤ 255) (hb : b ≤ 255) :
    rgb_to_rgb565 r g b < 65536 ∧
    (encodePixel2 r g b).length = 2 ∧
    encodePixel2 r g b = [rgb_to_rgb565 r g b % 256, rgb_to_rgb565 r g b / 256] ∧
    rgb_to_rgb565 r g b % 256 < 256 ∧ rgb_to_rgb565 r g b / 256 < 256 ∧
    rgb_to_rgb565 r g b % 256 + 256 * (rgb_to_rgb565 r g b / 256) =
      rgb_to_rgb565 r g b ∧
    (encodePixel4 r g b).length = 4 ∧
    encodePixel4 r g b = [b, g, r, 255] ∧
    encodePixel4 0 0 255 = bgraBlueBytes := by
  have hlt : rgb_to_rgb565 r g b < 65536 := by
    unfold rgb_to_rgb565
    have e16 : (65536 : ℕ) = 2 ^ 16 := by norm_num
    rw [e16]
    apply Nat.or_lt_two_pow
    apply Nat.or_lt_two_pow
    · rw [Nat.shiftLeft_eq, Nat.shiftRight_eq_div_pow]
      have : r / 2 ^ 3 ≤ 31 := by omega
      calc r / 2 ^ 3 * 2 ^ 11 ≤ 31 * 2 ^ 11 := Nat.mul_le_mul_right _ this
        _ < 2 ^ 16 := by norm_num
    · rw [Nat.shiftLeft_eq, Nat.shiftRight_eq_div_pow]
      have : g / 2 ^ 2 ≤ 63 := by omega
      calc g / 2 ^ 2 * 2 ^ 5 ≤ 63 * 2 ^ 5 := Nat.mul_le_mul_right _ this
        _ < 2 ^ 16 := by norm_num
    · rw [Nat.shiftRight_eq_div_pow]
      have : b / 2 ^ 3 ≤ 31 := by omega
      calc b / 2 ^ 3 ≤ 31 := this
        _ < 2 ^ 16 := by norm_num
  refine ⟨hlt, rfl, rfl, Nat.mod_lt _ (by norm_num), by omega, ?_, rfl, rfl, rfl⟩
  omega

/-- Witness for C4 at the vinyl label color (140, 30, 30) of
src/vinyl_simple.py line 29. -/
theorem c4_pixel_codec_witness :
    ((140 : ℕ) ≤ 255 ∧ (30 : ℕ) ≤ 255 ∧ (30 : ℕ) ≤ 255) ∧
    (rgb_to_rgb565 140 30 30 < 65536 ∧
      (encodePixel2 140 30 30).length = 2 ∧
      encodePixel2 140 30 30 =
        [rgb_to_rgb565 140 30 30 % 256, rgb_to_rgb565 140 30 30 / 256] ∧
      rgb_to_rgb565 140 30 30 % 256 < 256 ∧ rgb_to_rgb565 140 30 30 / 256 < 256 ∧
      rgb_to_rgb565 140 30 30 % 256 + 256 * (rgb_to_rgb565 140 30 30 / 256) =
        rgb_to_rgb565 140 30 30 ∧
      (encodePixel4 140 30 30).length = 4 ∧
      encodePixel4 140 30 30 = [30, 30, 140, 255] ∧
      encodePixel4 0 0 255 = bgraBlueBytes) :=
  ⟨by decide, c4_pixel_codec 140 30 30 (by decide) (by decide) (by decide)⟩

/-- Hour-hand angle of AnalogClock.get_current_time_angles
(src/analog_clock.py lines 247-261): the code first reduces the hour with
hours = now.hour % 12 and then computes
(hours + minutes/60 + seconds/3600) * math.pi / 6 - math.pi / 2.
Every identity the claim states holds for an arbitrary value of pi, so pi
is passed as a parameter rather than fixed to a float approximation. -/
def hour_angle (pi : ℚ) (hour : ℕ) (minutes seconds : ℚ) : ℚ :=
  (((hour % 12 : ℕ) : ℚ) + minutes / 60 + seconds / 3600) * pi / 6 - pi / 2

/-- Minute-hand angle of AnalogClock.get_current_time_angles. -/
def minute_angle (pi : ℚ) (minutes seconds : ℚ) : ℚ :=
  (minutes + seconds / 60) * pi / 30 - pi / 2

/-- Second-hand angle of AnalogClock.get_current_time_angles. -/
def second_angle (pi : ℚ) (seconds : ℚ) : ℚ :=
  seconds * pi / 30 - pi / 2

/-- The triple returned by AnalogClock.get_current_time_angles. -/
def get_current_time_angles (pi : ℚ) (hour : ℕ) (minutes seconds : ℚ) :
    ℚ × ℚ × ℚ :=
  (hour_angle pi hour minutes seconds, minute_angle pi minutes seconds,
    second_angle pi seconds)

/-- C5: get_current_time_angles returns the three claimed angle formulas;
the hour angle at h = 3, m = 0, s = 0 is 0, and the hour angle at h = 12
equals the hour angle at h = 0 for the same minutes and seconds. -/
theorem c5_clock_angles (pi : ℚ) (hour : ℕ) (m s m2 s2 : ℚ) (hh : hour < 24) :
    get_current_time_angles pi hour m s =
      ((((hour % 12 : ℕ) : ℚ) + m / 60 + s / 3600) * pi / 6 - pi / 2,
        (m + s / 60) * pi / 30 - pi / 2,
        s * pi / 30 - pi / 2) ∧
    hour_angle pi 3 0 0 = 0 ∧
    hour_angle pi 12 m2 s2 = hour_angle pi 0 m2 s2 := by
  refine ⟨rfl, ?_, ?_⟩
  · unfold hour_angle
    norm_num
    ring
  · unfold hour_angle
    norm_num

/-- Witness for C5. -/
theorem c5_clock_angles_witness :
    (5 : ℕ) < 24 ∧
    (get_current_time_angles (22/7) 5 10 20 =
      ((((5 % 12 : ℕ) : ℚ) + 10 / 60 + 20 / 3600) * (22/7) / 6 - (22/7) / 2,
        (10 + 20 / 60) * (22/7) / 30 - (22/7) / 2,
        20 * (22/7) / 30 - (22/7) / 2) ∧
      hour_angle (22/7) 3 0 0 = 0 ∧
      hour_angle (22/7) 12 45 30 = hour_angle (22/7) 0 45 30) :=
  ⟨by decide, c5_clock_angles (22/7) 5 10 20 45 30 (by decide)⟩

/-- Minimum inter-request interval from AcoustIDClient.__init__
(src/hifiberry_vu/acoustid.py line 83): 1 / rate_limit when rate_limit is
positive, otherwise 0. -/
def min_interval (rate_limit : ℚ) : ℚ :=
  if 0 < rate_limit then 1 / rate_limit else 0

/-- DEFAULT_RATE_LIMIT of src/hifiberry_vu/acoustid.py line 57. -/
def DEFAULT_RATE_LIMIT : ℚ := 3

/-- AcoustIDClient._enforce_rate_limit (src/hifiberry_vu/acoustid.py lines
85-92) under an idealized clock: the method runs instantaneously except
that time.sleep(d) advances the clock by exactly d.  Given the stored
last-request time and the current time, it returns the time at which the
request actually starts, which the method also stores as the new
last-request time. -/
def enforce_rate_limit (mi last now : ℚ) : ℚ :=
  if 0 < mi then
    if now - last < mi then now + (mi - (now - last)) else now
  else now

/-- C6: with a positive rate limit the start times of two consecutive
requests are at least 1/rate_limit apart (1/3 of a second for the default
rate limit of 3), and the first request (stored last-request time 0) is not
delayed whenever the clock already reads at least the minimum interval,
which holds for any realistic wall-clock value. -/
theorem c6_rate_limit (rate_limit last now now0 : ℚ)
    (hr : 0 < rate_limit) (h0 : min_interval rate_limit ≤ now0) :
    min_interval rate_limit = 1 / rate_limit ∧
    min_interval DEFAULT_RATE_LIMIT = 1 / 3 ∧
    min_interval rate_limit ≤
      enforce_rate_limit (min_interval rate_limit) last now - last ∧
    enforce_rate_limit (min_interval rate_limit) 0 now0 = now0 := by
  have hmi : min_interval rate_limit = 1 / rate_limit := if_pos hr
  have hmipos : 0 < min_interval rate_limit := by
    rw [hmi]; exact one_div_pos.mpr hr
  refine ⟨hmi, ?_, ?_, ?_⟩
  · unfold min_interval DEFAULT_RATE_LIMIT
    norm_num
  · unfold enforce_rate_limit
    rw [if_pos hmipos]
    by_cases h : now - last < min_interval rate_limit
    · rw [if_pos h]; linarith
    · rw [if_neg h]; linarith [not_lt.mp h]
  · unfold enforce_rate_limit
    rw [if_pos hmipos, if_neg (by simp only [sub_zero]; linarith)]

/-- Witness for C6 at the default rate limit of 3 requests per second. -/
theorem c6_rate_limit_witness :
    ((0 : ℚ) < 3 ∧ min_interval 3 ≤ 1000) ∧
    (min_interval 3 = 1 / 3 ∧
      min_interval DEFAULT_RATE_LIMIT = 1 / 3 ∧
      min_interval 3 ≤ enforce_rate_limit (min_interval 3) 100 100 - 100 ∧
      enforce_rate_limit (min_interval 3) 0 1000 = 1000) :=
  ⟨by norm_num [min_interval],
   c6_rate_limit 3 100 100 1000 (by norm_num) (by norm_num [min_interval])⟩

/-- Disk membership test of draw_circle_direct_fb (src/direct_fb_circle.py
lines 61-66): math.sqrt(dx*dx + dy*dy) <= circle_radius, which for integer
coordinates and radius is equivalent to the squared comparison. -/
def inDisk (cx cy r x y : ℤ) : Prop :=
  (x - cx) * (x - cx) + (y - cy) * (y - cy) ≤ r * r

instance (cx cy r x y : ℤ) : Decidable (inDisk cx cy r x y) :=
  inferInstanceAs
    (Decidable ((x - cx) * (x - cx) + (y - cy) * (y - cy) ≤ r * r))

/-- Half-chord of the scanline circle filler (src/analog_clock.py line
128): int(math.sqrt(max(0, radius * radius - dy * dy))), the integer
square root of the radicand clamped at zero (toNat performs the max with
0). -/
def halfChord (r dy : ℤ) : ℤ := (Nat.sqrt (r * r - dy * dy).toNat : ℤ)

/-- Pixel set painted by AnalogClock.draw_filled_circle_fast
(src/analog_clock.py lines 122-131): for each dy in [-r, r] with positive
half-chord dx it paints the horizontal span [cx - dx, cx + dx] on row
cy + dy; rows whose half-chord is zero are skipped by the guard
if dx > 0.  The row determines dy as y - cy, eliminating the loop
variable. -/
def scanlinePainted (cx cy r x y : ℤ) : Prop :=
  -r ≤ y - cy ∧ y - cy ≤ r ∧ 0 < halfChord r (y - cy) ∧
    cx - halfChord r (y - cy) ≤ x ∧ x ≤ cx + halfChord r (y - cy)

instance (cx cy r x y : ℤ) : Decidable (scanlinePainted cx cy r x y) :=
  inferInstanceAs
    (Decidable (-r ≤ y - cy ∧ y - cy ≤ r ∧ 0 < halfChord r (y - cy) ∧
      cx - halfChord r (y - cy) ≤ x ∧ x ≤ cx + halfChord r (y - cy)))

/-- Pixel set painted by draw_circle_direct_fb (src/direct_fb_circle.py
lines 58-80): every pixel of the w x h grid passing the distance test. -/
def perPixelPainted (w h cx cy r x y : ℤ) : Prop :=
  0 ≤ x ∧ x < w ∧ 0 ≤ y ∧ y < h ∧ inDisk cx cy r x y

instance (w h cx cy r x y : ℤ) : Decidable (perPixelPainted w h cx cy r x y) :=
  inferInstanceAs
    (Decidable (0 ≤ x ∧ x < w ∧ 0 ≤ y ∧ y < h ∧ inDisk cx cy r x y))

lemma sq_le_iff_toNat (u m : ℤ) (hm : 0 ≤ m) :
    u * u ≤ m ↔ u.natAbs * u.natAbs ≤ m.toNat := by
  rw [← Int.natAbs_mul_self]
  generalize u.natAbs * u.natAbs = k
  omega

lemma natAbs_le_halfChord_iff (r v u : ℤ) (hv : v * v ≤ r * r) :
    (u.natAbs : ℤ) ≤ halfChord r v ↔ u * u + v * v ≤ r * r := by
  have hm : 0 ≤ r * r - v * v := by linarith
  unfold halfChord
  rw [Nat.cast_le, Nat.le_sqrt, ← sq_le_iff_toNat u _ hm]
  constructor <;> intro h <;> linarith

lemma scanline_mem_iff (r u v : ℤ) (hr : 0 < r) :
    (-r ≤ v ∧ v ≤ r ∧ 0 < halfChord r v ∧
        -(halfChord r v) ≤ u ∧ u ≤ halfChord r v) ↔
      (u * u + v * v ≤ r * r ∧ ¬(u = 0 ∧ (v = -r ∨ v = r))) := by
  constructor
  · rintro ⟨h1, h2, h3, h4, h5⟩
    have hpos : 0 < (r * r - v * v).toNat := by
      unfold halfChord at h3
      have h3' : 0 < Nat.sqrt (r * r - v * v).toNat := by exact_mod_cast h3
      exact Nat.sqrt_pos.mp h3'
    have hv2 : v * v < r * r := by omega
    have habs : (u.natAbs : ℤ) ≤ halfChord r v := by
      unfold halfChord at h4 h5 ⊢
      omega
    have hdisk := (natAbs_le_halfChord_iff r v u (le_of_lt hv2)).mp habs
    refine ⟨hdisk, ?_⟩
    rintro ⟨hu0, hv⟩
    have hvv : v * v = r * r := by rcases hv with h | h <;> rw [h] <;> ring
    omega
  · rintro ⟨hdisk, hexcl⟩
    have hu2 : 0 ≤ u * u := mul_self_nonneg u
    have hv2 : v * v ≤ r * r := by linarith
    have habsv : v.natAbs ≤ r.natAbs := Int.natAbs_le_iff_mul_self_le.mpr hv2
    have hb1 : -r ≤ v := by omega
    have hb2 : v ≤ r := by omega
    by_cases hvr : v = -r ∨ v = r
    · have hvv : v * v = r * r := by rcases hvr with h | h <;> rw [h] <;> ring
      have hu0 : u * u ≤ 0 := by linarith
      have hu : u = 0 := by
        rcases lt_trichotomy u 0 with h | h | h
        · nlinarith
        · exact h
        · nlinarith
      exact absurd ⟨hu, hvr⟩ hexcl
    · push_neg at hvr
      have hvlt : v.natAbs < r.natAbs := by omega
      have hvv : v * v < r * r := Int.natAbs_lt_iff_mul_self_lt.mp hvlt
      have hchord_pos : 0 < halfChord r v := by
        unfold halfChord
        have h1' : 0 < (r * r - v * v).toNat := by omega
        exact_mod_cast Nat.sqrt_pos.mpr h1'
      have habs : (u.natAbs : ℤ) ≤ halfChord r v :=
        (natAbs_le_halfChord_iff r v u (le_of_lt hvv)).mpr hdisk
      refine ⟨hb1, hb2, hchord_pos, ?_, ?_⟩ <;>
        · unfold halfChord at habs ⊢
          omega

/-- C2 counterexample: with radius 300 and center (360, 360) on the
720 x 720 grid of the source programs, the pole pixel (360, 660) lies at
distance exactly r from the center, so the per-pixel variant paints it,
but the scanline variant skips it because the half-chord of its row is 0
and the guard if dx > 0 suppresses the span. -/
theorem c2_circle_rasterizers_counterexample :
    perPixelPainted 720 720 360 360 300 360 660 ∧
    inDisk 360 360 300 360 660 ∧
    ¬ scanlinePainted 360 360 300 360 660 := by decide

/-- C2 amended: the per-pixel variant paints exactly the grid pixels whose
squared distance from the center is at most r squared, while the scanline
variant paints exactly that disk minus the two pole pixels (cx, cy - r)
and (cx, cy + r), which its guard if dx > 0 skips. -/
theorem c2_circle_rasterizers_amended (w h cx cy r x y : ℤ) (hr : 0 < r) :
    (perPixelPainted w h cx cy r x y ↔
      (0 ≤ x ∧ x < w ∧ 0 ≤ y ∧ y < h ∧ inDisk cx cy r x y)) ∧
    (scanlinePainted cx cy r x y ↔
      (inDisk cx cy r x y ∧ ¬(x = cx ∧ (y = cy - r ∨ y = cy + r)))) := by
  refine ⟨Iff.rfl, ?_⟩
  have key := scanline_mem_iff r (x - cx) (y - cy) hr
  unfold scanlinePainted inDisk
  constructor
  · rintro ⟨h1, h2, h3, h4, h5⟩
    obtain ⟨hdisk, hexcl⟩ := key.mp ⟨h1, h2, h3, by omega, by omega⟩
    refine ⟨hdisk, ?_⟩
    rintro ⟨hx, hy⟩
    apply hexcl
    refine ⟨by omega, ?_⟩
    rcases hy with hy | hy
    · exact Or.inl (by omega)
    · exact Or.inr (by omega)
  · rintro ⟨hdisk, hexcl⟩
    have hexcl' : ¬(x - cx = 0 ∧ (y - cy = -r ∨ y - cy = r)) := by
      rintro ⟨hu, hv⟩
      apply hexcl
      refine ⟨by omega, ?_⟩
      rcases hv with hv | hv
      · exact Or.inl (by omega)
      · exact Or.inr (by omega)
    obtain ⟨h1, h2, h3, h4, h5⟩ := key.mpr ⟨hdisk, hexcl'⟩
    exact ⟨h1, h2, h3, by omega, by omega⟩

/-- Witness for the amended C2 at the source programs' circle parameters. -/
theorem c2_circle_rasterizers_amended_witness :
    (0 : ℤ) < 300 ∧
    ((perPixelPainted 720 720 360 360 300 400 500 ↔
        (0 ≤ (400 : ℤ) ∧ (400 : ℤ) < 720 ∧ 0 ≤ (500 : ℤ) ∧ (500 : ℤ) < 720 ∧
          inDisk 360 360 300 400 500)) ∧
      (scanlinePainted 360 360 300 400 500 ↔
        (inDisk 360 360 300 400 500 ∧
          ¬((400 : ℤ) = 360 ∧ ((500 : ℤ) = 360 - 300 ∨ (500 : ℤ) = 360 + 300))))) :=
  ⟨by decide, c2_circle_rasterizers_amended 720 720 360 360 300 400 500 (by decide)⟩

/-- Exit paths of the animation loop in animate_simple_vinyl
(src/vinyl_simple.py lines 89-125): the inner try around the while loop
catches only KeyboardInterrupt; any other exception raised while rendering
or flushing escapes to the outer generic handler. -/
inductive LoopExit where
  | interrupted : LoopExit
  | renderError : LoopExit
deriving DecidableEq

/-- Final contents of the memory-mapped framebuffer of animate_simple_vinyl
on each exit path, the mapping modelled as its list of bytes.  On
KeyboardInterrupt the inner handler overwrites the whole mapping with zero
bytes and flushes (src/vinyl_simple.py lines 116-119); on any other
exception the outer handler (lines 123-125) prints the error and returns 1
without touching the mapping, so the buffer keeps its last frame. -/
def vinylExitFb (e : LoopExit) (fb : List ℕ) : List ℕ :=
  match e with
  | LoopExit.interrupted => List.replicate fb.length 0
  | LoopExit.renderError => fb

/-- Exit paths of draw_circle_direct_fb (src/direct_fb_circle.py lines
47-104): the normal path clears the mapping before closing (lines 88-91);
a failure anywhere inside the try block reaches the generic handler (lines
100-102), which prints and returns 1 without clearing. -/
inductive FbRunExit where
  | normal : FbRunExit
  | failure : FbRunExit
deriving DecidableEq

/-- Final framebuffer contents of draw_circle_direct_fb per exit path. -/
def directFbExitFb (e : FbRunExit) (fb : List ℕ) : List ℕ :=
  match e with
  | FbRunExit.normal => List.replicate fb.length 0
  | FbRunExit.failure => fb

/-- C7 counterexample: a rendering or flush error is an exit path of the
animation loop on which the framebuffer is not left all-black: a buffer
holding a single nonzero byte is returned unchanged. -/
theorem c7_cleanup_counterexample :
    vinylExitFb LoopExit.renderError [7] ≠
      List.replicate (vinylExitFb LoopExit.renderError [7]).length 0 := by
  decide

/-- C7 amended: the framebuffer is cleared to all-zero bytes before the
mapping is released on the interrupt exit of the vinyl animation loop and
on the normal exit of the direct framebuffer program, but an error raised
during rendering or flush reaches the generic outer handler of either
program, which returns without clearing, leaving the buffer as it was. -/
theorem c7_cleanup_amended (fb : List ℕ) :
    vinylExitFb LoopExit.interrupted fb = List.replicate fb.length 0 ∧
    vinylExitFb LoopExit.renderError fb = fb ∧
    directFbExitFb FbRunExit.normal fb = List.replicate fb.length 0 ∧
    directFbExitFb FbRunExit.failure fb = fb :=
  ⟨rfl, rfl, rfl, rfl⟩

/-- Framebuffer geometry as returned by the get_framebuffer_info helpers:
width, height, bytes per pixel, bits per pixel. -/
structure FbInfo where
  width : ℕ
  height : ℕ
  bytes_per_pixel : ℕ
  bpp : ℕ
deriving DecidableEq

/-- get_framebuffer_info of src/direct_fb_circle.py lines 13-30.  The sysfs
probe is modelled as an optional result; the bare except of the source
returns the hardcoded default 720 x 720 at 4 bytes (32 bits) per pixel
instead of raising. -/
def directFb_get_framebuffer_info (probe : Option FbInfo) : FbInfo :=
  probe.getD ⟨720, 720, 4, 32⟩

/-- get_framebuffer_info of src/vinyl_ultra_fast.py lines 13-23: the
fallback geometry there is 720 x 720 at 2 bytes (16 bits) per pixel. -/
def ultraFast_get_framebuffer_info (probe : Option FbInfo) : FbInfo :=
  probe.getD ⟨720, 720, 2, 16⟩

/-- get_framebuffer_info of src/vinyl_png_player.py lines 14-24, fallback
720 x 720 at 2 bytes (16 bits) per pixel. -/
def vinylPng_get_framebuffer_info (probe : Option FbInfo) : FbInfo :=
  probe.getD ⟨720, 720, 2, 16⟩

/-- get_framebuffer_info of src/fps_benchmark.py lines 13-23, fallback
720 x 720 at 2 bytes (16 bits) per pixel. -/
def fpsBenchmark_get_framebuffer_info (probe : Option FbInfo) : FbInfo :=
  probe.getD ⟨720, 720, 2, 16⟩

/-- C8 counterexample: when the probe fails, the vinyl_ultra_fast variant
of get_framebuffer_info returns the 16-bit default geometry, not the
32-bit one the claim states for every program. -/
theorem c8_fb_fallback_counterexample :
    ultraFast_get_framebuffer_info none ≠ FbInfo.mk 720 720 4 32 ∧
    ultraFast_get_framebuffer_info none = FbInfo.mk 720 720 2 16 := by
  decide

/-- C8 amended: whenever the framebuffer geometry cannot be determined,
every get_framebuffer_info helper returns a hardcoded default instead of
raising: 720 x 720 at 32 bits (4 bytes) per pixel in direct_fb_circle and
720 x 720 at 16 bits (2 bytes) per pixel in vinyl_ultra_fast,
vinyl_png_player and fps_benchmark. -/
theorem c8_fb_fallback_amended :
    directFb_get_framebuffer_info none = FbInfo.mk 720 720 4 32 ∧
    ultraFast_get_framebuffer_info none = FbInfo.mk 720 720 2 16 ∧
    vinylPng_get_framebuffer_info none = FbInfo.mk 720 720 2 16 ∧
    fpsBenchmark_get_framebuffer_info none = FbInfo.mk 720 720 2 16 :=
  ⟨rfl, rfl, rfl, rfl⟩

/-- VU minimum level constant of VUMonitor (src/python_vu.py line 90). -/
def VU_MIN_DB : ℚ := -60

/-- VU maximum level constant of VUMonitor (src/python_vu.py line 91). -/
def VU_MAX_DB : ℚ := 6

/-- VU 0 dB reference RMS level of VUMonitor (src/python_vu.py line 92),
the float literal 0.707 taken as the exact decimal rational. -/
def VU_REFERENCE : ℚ := 707 / 1000

/-- VUMonitor._rms_to_db (src/python_vu.py lines 234-243).  The base-10
logarithm is abstracted as a function parameter: every claimed property
holds for an arbitrary function in its place, because non-positive inputs
short-circuit before it is applied and the result is clamped to the VU
range afterwards. -/
def rms_to_db (log10 : ℚ → ℚ) (rms_value : ℚ) : ℚ :=
  if rms_value ≤ 0 then VU_MIN_DB
  else max VU_MIN_DB (min VU_MAX_DB (20 * log10 (rms_value / VU_REFERENCE)))

/-- Stored channel levels of VUMonitor (src/python_vu.py lines 79-80). -/
structure VUState where
  left_vu_db : ℚ
  right_vu_db : ℚ
deriving DecidableEq

/-- Initial VUMonitor level state: both channels start at -60.0
(src/python_vu.py lines 79-80). -/
def initVUState : VUState := ⟨-60, -60⟩

/-- Level-storing tail of VUMonitor._calculate_vu_levels (src/python_vu.py
lines 230-232): both stored fields are overwritten with rms_to_db of the
freshly computed channel RMS values; the previous state is discarded. -/
def calculate_vu_levels (log10 : ℚ → ℚ) (_st : VUState)
    (left_rms right_rms : ℚ) : VUState :=
  ⟨rms_to_db log10 left_rms, rms_to_db log10 right_rms⟩

/-- VUMonitor.get_vu_levels (src/python_vu.py lines 245-253): the stored
pair is returned. -/
def get_vu_levels (st : VUState) : ℚ × ℚ := (st.left_vu_db, st.right_vu_db)

/-- The state reached after any sequence of VU level updates, each update
carrying the two channel RMS values. -/
def runVUUpdates (log10 : ℚ → ℚ) (updates : List (ℚ × ℚ)) : VUState :=
  updates.foldl (fun st p => calculate_vu_levels log10 st p.1 p.2) initVUState

lemma rms_to_db_mem (log10 : ℚ → ℚ) (rms : ℚ) :
    VU_MIN_DB ≤ rms_to_db log10 rms ∧ rms_to_db log10 rms ≤ VU_MAX_DB := by
  unfold rms_to_db VU_MIN_DB VU_MAX_DB
  split
  · norm_num
  · exact ⟨le_max_left _ _, max_le (by norm_num) (min_le_left _ _)⟩

lemma foldl_vu_mem (log10 : ℚ → ℚ) (l : List (ℚ × ℚ)) (st : VUState)
    (h : VU_MIN_DB ≤ st.left_vu_db ∧ st.left_vu_db ≤ VU_MAX_DB ∧
      VU_MIN_DB ≤ st.right_vu_db ∧ st.right_vu_db ≤ VU_MAX_DB) :
    VU_MIN_DB ≤
        (l.foldl (fun st p => calculate_vu_levels log10 st p.1 p.2) st).left_vu_db ∧
      (l.foldl (fun st p => calculate_vu_levels log10 st p.1 p.2) st).left_vu_db ≤
        VU_MAX_DB ∧
      VU_MIN_DB ≤
        (l.foldl (fun st p => calculate_vu_levels log10 st p.1 p.2) st).right_vu_db ∧
      (l.foldl (fun st p => calculate_vu_levels log10 st p.1 p.2) st).right_vu_db ≤
        VU_MAX_DB := by
  induction l generalizing st with
  | nil => exact h
  | cons p tl ih =>
      simp only [List.foldl_cons]
      apply ih
      exact ⟨(rms_to_db_mem log10 p.1).1, (rms_to_db_mem log10 p.1).2,
        (rms_to_db_mem log10 p.2).1, (rms_to_db_mem log10 p.2).2⟩

/-- C9: rms_to_db is total and always lands in [-60, 6]; the logarithm is
only ever applied to a strictly positive argument because non-positive RMS
values short-circuit to the minimum; and after any update history
get_vu_levels returns a pair of values in [-60, 6]. -/
theorem c9_rms_to_db_range (log10 : ℚ → ℚ) (rms rmsPos : ℚ)
    (updates : List (ℚ × ℚ)) (hpos : 0 < rmsPos) :
    VU_MIN_DB ≤ rms_to_db log10 rms ∧ rms_to_db log10 rms ≤ VU_MAX_DB ∧
    0 < rmsPos / VU_REFERENCE ∧
    VU_MIN_DB ≤ (get_vu_levels (runVUUpdates log10 updates)).1 ∧
    (get_vu_levels (runVUUpdates log10 updates)).1 ≤ VU_MAX_DB ∧
    VU_MIN_DB ≤ (get_vu_levels (runVUUpdates log10 updates)).2 ∧
    (get_vu_levels (runVUUpdates log10 updates)).2 ≤ VU_MAX_DB := by
  have hinit : VU_MIN_DB ≤ initVUState.left_vu_db ∧
      initVUState.left_vu_db ≤ VU_MAX_DB ∧
      VU_MIN_DB ≤ initVUState.right_vu_db ∧
      initVUState.right_vu_db ≤ VU_MAX_DB := by
    unfold initVUState VU_MIN_DB VU_MAX_DB
    norm_num
  have hrun := foldl_vu_mem log10 updates initVUState hinit
  have href : 0 < rmsPos / VU_REFERENCE := by
    apply div_pos hpos
    unfold VU_REFERENCE
    norm_num
  exact ⟨(rms_to_db_mem log10 rms).1, (rms_to_db_mem log10 rms).2, href,
    hrun.1, hrun.2.1, hrun.2.2.1, hrun.2.2.2⟩

/-- Witness for C9. -/
theorem c9_rms_to_db_range_witness :
    (0 : ℚ) < 3 ∧
    (VU_MIN_DB ≤ rms_to_db (fun _ => 0) (1/2) ∧
      rms_to_db (fun _ => 0) (1/2) ≤ VU_MAX_DB ∧
      0 < (3 : ℚ) / VU_REFERENCE ∧
      VU_MIN_DB ≤ (get_vu_levels (runVUUpdates (fun _ => 0) [(1, 2)])).1 ∧
      (get_vu_levels (runVUUpdates (fun _ => 0) [(1, 2)])).1 ≤ VU_MAX_DB ∧
      VU_MIN_DB ≤ (get_vu_levels (runVUUpdates (fun _ => 0) [(1, 2)])).2 ∧
      (get_vu_levels (runVUUpdates (fun _ => 0) [(1, 2)])).2 ≤ VU_MAX_DB) :=
  ⟨by norm_num, c9_rms_to_db_range (fun _ => 0) (1/2) 3 [(1, 2)] (by norm_num)⟩

/-- Demo needle state of VUMeter (src/hifiberry_vu/vu_meter.py lines
237-238): the current angle and the sweep direction, 1 for increasing and
-1 for decreasing. -/
structure DemoState where
  current_needle_angle : ℚ
  needle_direction : ℤ
deriving DecidableEq

/-- Initial demo state from VUMeter.__init__: the angle starts at
needle_min_angle with direction 1. -/
def initDemoState (cfg : VuConfig) : DemoState := ⟨cfg.needle_min_angle, 1⟩

/-- One call of VUMeter._update_demo_needle (src/hifiberry_vu/vu_meter.py
lines 401-421).  The doUpdate flag models the timing guard on
last_needle_update: when it is false the method returns the unchanged
angle.  When it fires, the angle advances by direction * step; if the
result reaches or exceeds needle_max_angle it is clamped there and the
direction reverses to -1, else if it reaches or falls below
needle_min_angle it is clamped there and the direction reverses to 1. -/
def update_demo_needle (cfg : VuConfig) (step : ℚ) (doUpdate : Bool)
    (st : DemoState) : DemoState :=
  if doUpdate then
    if cfg.needle_max_angle ≤
        st.current_needle_angle + (st.needle_direction : ℚ) * step then
      ⟨cfg.needle_max_angle, -1⟩
    else if st.current_needle_angle + (st.needle_direction : ℚ) * step ≤
        cfg.needle_min_angle then
      ⟨cfg.needle_min_angle, 1⟩
    else
      ⟨st.current_needle_angle + (st.needle_direction : ℚ) * step,
        st.needle_direction⟩
  else st

/-- The demo state reached from the initial state after any sequence of
calls, each call carrying its step size and whether the timing guard
fired. -/
def runDemoNeedle (cfg : VuConfig) (calls : List (ℚ × Bool)) : DemoState :=
  calls.foldl (fun st c => update_demo_needle cfg c.1 c.2 st) (initDemoState cfg)

lemma update_demo_needle_mem (cfg : VuConfig) (step : ℚ) (b : Bool)
    (st : DemoState) (hcfg : cfg.needle_min_angle ≤ cfg.needle_max_angle)
    (h : cfg.needle_min_angle ≤ st.current_needle_angle ∧
      st.current_needle_angle ≤ cfg.needle_max_angle) :
    cfg.needle_min_angle ≤ (update_demo_needle cfg step b st).current_needle_angle ∧
      (update_demo_needle cfg step b st).current_needle_angle ≤
        cfg.needle_max_angle := by
  unfold update_demo_needle
  split_ifs with hb hhi hlo
  · exact ⟨hcfg, le_refl _⟩
  · exact ⟨le_refl _, hcfg⟩
  · exact ⟨le_of_lt (lt_of_not_le hlo), le_of_lt (lt_of_not_le hhi)⟩
  · exact h

lemma foldl_demo_mem (cfg : VuConfig) (l : List (ℚ × Bool)) (st : DemoState)
    (hcfg : cfg.needle_min_angle ≤ cfg.needle_max_angle)
    (h : cfg.needle_min_angle ≤ st.current_needle_angle ∧
      st.current_needle_angle ≤ cfg.needle_max_angle) :
    cfg.needle_min_angle ≤
        (l.foldl (fun st c => update_demo_needle cfg c.1 c.2 st) st).current_needle_angle ∧
      (l.foldl (fun st c => update_demo_needle cfg c.1 c.2 st) st).current_needle_angle ≤
        cfg.needle_max_angle := by
  induction l generalizing st with
  | nil => exact h
  | cons c tl ih =>
      simp only [List.foldl_cons]
      exact ih _ (update_demo_needle_mem cfg c.1 c.2 st hcfg h)

/-- C10: starting from the initial demo state at needle_min_angle, the
angle stays inside [needle_min_angle, needle_max_angle] after every call
of _update_demo_needle, for any step sizes and guard outcomes; moreover a
step that reaches or crosses the upper bound clamps to needle_max_angle
and reverses the direction to -1, and one that reaches or crosses the
lower bound (without reaching the upper one) clamps to needle_min_angle
and reverses the direction to 1. -/
theorem c10_demo_needle_invariant (cfg : VuConfig) (calls : List (ℚ × Bool))
    (st1 st2 : DemoState) (step1 step2 : ℚ)
    (hcfg : cfg.needle_min_angle ≤ cfg.needle_max_angle)
    (h1 : cfg.needle_max_angle ≤
      st1.current_needle_angle + (st1.needle_direction : ℚ) * step1)
    (h2a : st2.current_needle_angle + (st2.needle_direction : ℚ) * step2 ≤
      cfg.needle_min_angle)
    (h2b : st2.current_needle_angle + (st2.needle_direction : ℚ) * step2 <
      cfg.needle_max_angle) :
    cfg.needle_min_angle ≤ (runDemoNeedle cfg calls).current_needle_angle ∧
    (runDemoNeedle cfg calls).current_needle_angle ≤ cfg.needle_max_angle ∧
    update_demo_needle cfg step1 true st1 =
      DemoState.mk cfg.needle_max_angle (-1) ∧
    update_demo_needle cfg step2 true st2 =
      DemoState.mk cfg.needle_min_angle 1 := by
  have hinit : cfg.needle_min_angle ≤ (initDemoState cfg).current_needle_angle ∧
      (initDemoState cfg).current_needle_angle ≤ cfg.needle_max_angle :=
    ⟨le_refl _, hcfg⟩
  have hrun := foldl_demo_mem cfg calls (initDemoState cfg) hcfg hinit
  refine ⟨hrun.1, hrun.2, ?_, ?_⟩
  · unfold update_demo_needle
    rw [if_pos rfl, if_pos h1]
  · unfold update_demo_needle
    rw [if_pos rfl, if_neg (not_le.mpr h2b), if_pos h2a]

/-- Witness for C10 at the configured needle range. -/
theorem c10_demo_needle_invariant_witness :
    (defaultConfig.needle_min_angle ≤ defaultConfig.needle_max_angle ∧
      defaultConfig.needle_max_angle ≤
        (DemoState.mk 10 1).current_needle_angle +
          ((DemoState.mk 10 1).needle_direction : ℚ) * 50 ∧
      (DemoState.mk (-30) (-1)).current_needle_angle +
          ((DemoState.mk (-30) (-1)).needle_direction : ℚ) * 50 ≤
        defaultConfig.needle_min_angle ∧
      (DemoState.mk (-30) (-1)).current_needle_angle +
          ((DemoState.mk (-30) (-1)).needle_direction : ℚ) * 50 <
        defaultConfig.needle_max_angle) ∧
    (defaultConfig.needle_min_angle ≤
        (runDemoNeedle defaultConfig [(3, true), (100, true), (5, false)]).current_needle_angle ∧
      (runDemoNeedle defaultConfig [(3, true), (100, true), (5, false)]).current_needle_angle ≤
        defaultConfig.needle_max_angle ∧
      update_demo_needle defaultConfig 50 true (DemoState.mk 10 1) =
        DemoState.mk defaultConfig.needle_max_angle (-1) ∧
      update_demo_needle defaultConfig 50 true (DemoState.mk (-30) (-1)) =
        DemoState.mk defaultConfig.needle_min_angle 1) :=
  ⟨by norm_num [defaultConfig],
   c10_demo_needle_invariant defaultConfig [(3, true), (100, true), (5, false)]
     (DemoState.mk 10 1) (DemoState.mk (-30) (-1)) 50 50
     (by norm_num [defaultConfig]) (by norm_num [defaultConfig])
     (by norm_num [defaultConfig]) (by norm_num [defaultConfig])⟩
